import Mathlib

/-!
# Verification of the price-rule debugger's parsing and matching engine

Shallow embedding of the rule parser (`parseXmlRules`) and the booking
evaluator (`isBookingAllowedByRule`) from `src/App.jsx` /
`src/unnamed/part_004`, together with the multi-booking aggregation
(`highlightedRuleIds`) and the multi-season batch merge from
`handleFetchFromAPI`.

Modelling conventions:
* Calendar dates are represented by their epoch-day number (days since
  1970-01-01) as an `Int`.  `parseISO` is modelled on date-only ISO strings
  `YYYY-MM-DD` (the only shape the application feeds it): a valid string
  maps to `some epochDay`, anything else to `none`, which stands for the
  JavaScript `Invalid Date` (a `Date` whose time value is `NaN`).
* JavaScript `NaN`-valued numbers arising from `parseInt` are modelled as
  `none : Option Int`.  Inside the evaluator every use of such a number is
  either a truthiness test (where `NaN`, `null` and `0` are all falsy) or a
  `<`/`>` comparison (where any comparison involving `NaN` is false), so
  collapsing `NaN` and `null` into `none` preserves the evaluator's
  behaviour exactly; `Array.prototype.includes` uses SameValueZero, under
  which `NaN` matches `NaN`, which the `BEq (Option Int)` instance mirrors
  (`none == none`).
* date-fns `parseISO` throws a `TypeError` when handed `null` (it calls
  `String.prototype.split` on its argument), so evaluating a rule whose
  `from`/`to` field is absent aborts with an exception; the evaluator is
  therefore `Option Bool`-valued, `none` standing for a thrown exception.
-/

namespace PriceRuleDebugger

/-- Gregorian leap-year test. -/
def isLeapYear (y : Nat) : Bool :=
  (y % 4 == 0 && y % 100 != 0) || y % 400 == 0

/-- Number of days in month `m` of year `y` (months are `1..12`). -/
def daysInMonth (y m : Nat) : Nat :=
  if m = 2 then (if isLeapYear y then 29 else 28)
  else if m = 4 ∨ m = 6 ∨ m = 9 ∨ m = 11 then 30
  else 31

/-- Epoch-day number (days since 1970-01-01) of the civil date `y-m-d`,
via the standard era/year-of-era decomposition. -/
def daysFromCivil (y m d : Nat) : Int :=
  let yAdj : Int := if m ≤ 2 then (y : Int) - 1 else (y : Int)
  let era : Int := Int.fdiv yAdj 400
  let yoe : Int := yAdj - era * 400
  let mp : Int := ((m : Int) + 9) % 12
  let doy : Int := (153 * mp + 2) / 5 + (d : Int) - 1
  let doe : Int := yoe * 365 + yoe / 4 - yoe / 100 + doy
  era * 146097 + doe - 719468

/-- Split a character list at every occurrence of `sep`. -/
def splitOnCharAux (sep : Char) : List Char → List Char → List (List Char)
  | [], acc => [acc.reverse]
  | c :: cs, acc =>
    if c = sep then acc.reverse :: splitOnCharAux sep cs []
    else splitOnCharAux sep cs (c :: acc)

def splitOnChar (sep : Char) (cs : List Char) : List (List Char) :=
  splitOnCharAux sep cs []

/-- The numeric value of a non-empty all-digit character list. -/
def digitsToNat? (cs : List Char) : Option Nat :=
  if cs ≠ [] ∧ cs.all Char.isDigit then
    some (cs.foldl (fun a c => a * 10 + (c.toNat - '0'.toNat)) 0)
  else none

/-- Model of date-fns `parseISO` on the date-only strings the application
uses: a strict `YYYY-MM-DD` string naming a real calendar day parses to its
epoch-day number, every other string yields `none` (JavaScript
`Invalid Date`). -/
def parseISO (s : String) : Option Int :=
  match splitOnChar '-' s.toList with
  | [ys, ms, ds] =>
    if ys.length = 4 ∧ ms.length = 2 ∧ ds.length = 2 then
      match digitsToNat? ys, digitsToNat? ms, digitsToNat? ds with
      | some y, some m, some d =>
        if 1 ≤ m ∧ m ≤ 12 ∧ 1 ≤ d ∧ d ≤ daysInMonth y m then
          some (daysFromCivil y m d)
        else none
      | _, _, _ => none
    else none
  | _ => none

/-- date-fns `isBefore`: compares time values; any comparison involving an
invalid date (`NaN`) is false. -/
def jsIsBefore : Option Int → Option Int → Bool
  | some a, some b => a < b
  | _, _ => false

/-- date-fns `isAfter`: any comparison involving an invalid date is false. -/
def jsIsAfter : Option Int → Option Int → Bool
  | some a, some b => b < a
  | _, _ => false

/-- date-fns `differenceInCalendarDays` on midnight-normalised dates:
difference of epoch days; `NaN` if either date is invalid. -/
def differenceInCalendarDays : Option Int → Int → Option Int
  | some a, c => some (a - c)
  | none, _ => none

/-- JavaScript `x > y` where `x` may be `NaN`: false whenever `NaN` is
involved. -/
def jsGt : Option Int → Int → Bool
  | some a, b => b < a
  | none, _ => false

/-- JavaScript truthiness of a number that may be `null`/`NaN`: `null`,
`NaN` and `0` are falsy, everything else truthy. -/
def jsTruthyNum : Option Int → Bool
  | some v => v != 0
  | none => false

/-- `Date.prototype.getDay` of a date given by its epoch day:
`0 = Sunday .. 6 = Saturday` (1970-01-01 was a Thursday, day 4); `NaN` for
an invalid date. -/
def jsGetDay : Option Int → Option Int
  | some e => some ((e + 4) % 7)
  | none => none

/-- The evaluator's inline conversion `jsDay === 0 ? 7 : jsDay` producing
the rule convention `1 = Monday .. 7 = Sunday`; `NaN` propagates. -/
def jsWeekday (d : Option Int) : Option Int :=
  match jsGetDay d with
  | some j => some (if j = 0 then 7 else j)
  | none => none

/-- Strip leading and trailing whitespace from a character list. -/
def trimChars (cs : List Char) : List Char :=
  ((cs.dropWhile Char.isWhitespace).reverse.dropWhile Char.isWhitespace).reverse

/-- The maximal digit prefix of a character list, as a number; `none` when
there is no leading digit. -/
def digitPrefix? (cs : List Char) : Option Nat :=
  let digits := cs.takeWhile Char.isDigit
  if digits.isEmpty then none
  else some (digits.foldl (fun a c => a * 10 + (c.toNat - '0'.toNat)) 0)

/-- JavaScript `parseInt(s, 10)`: skip surrounding whitespace, optional
sign, then the maximal prefix of decimal digits; `none` models `NaN` when
no digit is found. -/
def parseIntJs (s : String) : Option Int :=
  match trimChars s.toList with
  | '-' :: rest => (digitPrefix? rest).map (fun n => -(n : Int))
  | '+' :: rest => (digitPrefix? rest).map (fun n => (n : Int))
  | cs => (digitPrefix? cs).map (fun n => (n : Int))

/-! ## XML document model

A parsed DOM element: tag name, the element's own character data, and its
child elements in document order.  `textContent` concatenates all character
data in the subtree; `descendants` lists the proper descendant elements in
document (pre-)order, which is the order `getElementsByTagName` returns. -/

inductive Xml where
  | elem (tag : String) (text : String) (children : List Xml)

mutual

def Xml.decEq : (a b : Xml) → Decidable (a = b)
  | .elem t1 x1 c1, .elem t2 x2 c2 =>
    match String.decEq t1 t2, String.decEq x1 x2, Xml.decEqList c1 c2 with
    | isTrue h1, isTrue h2, isTrue h3 => isTrue (by rw [h1, h2, h3])
    | isFalse h1, _, _ => isFalse (by intro h; injection h; contradiction)
    | _, isFalse h2, _ => isFalse (by intro h; injection h; contradiction)
    | _, _, isFalse h3 => isFalse (by intro h; injection h; contradiction)

def Xml.decEqList : (a b : List Xml) → Decidable (a = b)
  | [], [] => isTrue rfl
  | [], _ :: _ => isFalse (by intro h; exact List.noConfusion h)
  | _ :: _, [] => isFalse (by intro h; exact List.noConfusion h)
  | a :: as, b :: bs =>
    match Xml.decEq a b, Xml.decEqList as bs with
    | isTrue h1, isTrue h2 => isTrue (by rw [h1, h2])
    | isFalse h1, _ => isFalse (by intro h; injection h; contradiction)
    | _, isFalse h2 => isFalse (by intro h; injection h; contradiction)

end

instance : DecidableEq Xml := Xml.decEq

def Xml.tag : Xml → String
  | .elem t _ _ => t

def Xml.text : Xml → String
  | .elem _ tx _ => tx

def Xml.children : Xml → List Xml
  | .elem _ _ cs => cs

mutual

def Xml.textContent : Xml → String
  | .elem _ tx cs => tx ++ Xml.textContentList cs

def Xml.textContentList : List Xml → String
  | [] => ""
  | c :: cs => Xml.textContent c ++ Xml.textContentList cs

end

mutual

def Xml.descendants : Xml → List Xml
  | .elem _ _ cs => Xml.descendantsList cs

def Xml.descendantsList : List Xml → List Xml
  | [] => []
  | c :: cs => c :: Xml.descendants c ++ Xml.descendantsList cs

end

/-- `element.getElementsByTagName(t)`: proper descendants with tag `t`, in
document order. -/
def Xml.byTagName (e : Xml) (t : String) : List Xml :=
  e.descendants.filter (fun x => x.tag == t)

/-- All elements of the document whose root element is `doc`, in document
order (the root included), as searched by `document.getElementsByTagName`
and `document.querySelector`. -/
def docElements (doc : Xml) : List Xml :=
  doc :: doc.descendants

/-- The `rule` elements the parser iterates over: if the document contains
a `priceRules` element (`doc.querySelector('priceRules')` finds the first
one in document order), the `rule` descendants of that element; otherwise
every `rule` element of the document. -/
def ruleNodes (doc : Xml) : List Xml :=
  match (docElements doc).find? (fun e => e.tag == "priceRules") with
  | some p => p.byTagName "rule"
  | none => (docElements doc).filter (fun e => e.tag == "rule")

/-- The parser's `getTag` helper: `node.getElementsByTagName(tag)[0]`, and
the trimmed text content of that element when it exists. -/
def getTag (node : Xml) (t : String) : Option String :=
  (node.byTagName t).head?.map (fun el => el.textContent.trim)

/-- JavaScript truthiness of `getTag`'s result: `null` and the empty
string are falsy. -/
def optStrTruthy : Option String → Bool
  | some s => s != ""
  | none => false

/-- `getTag(t) ? parseInt(getTag(t), 10) : null` — the numeric optional
fields.  `none` covers both `null` and a `NaN` parse result. -/
def numField (o : Option String) : Option Int :=
  match o with
  | some s => if s != "" then parseIntJs s else none
  | none => none

/-! ## PriceRule -/

/-- The colour palette `COLOURS` from the source (8 entries). -/
def COLOURS : List String :=
  ["#0072B2", "#D55E00", "#F0E442", "#009E73",
   "#CC79A7", "#56B4E9", "#E69F00", "#8B4513"]

/-- `COLOURS[idx % COLOURS.length]`. -/
def colourFor (idx : Nat) : String :=
  COLOURS.getD (idx % COLOURS.length) ""

/-- A parsed price rule, exactly the object literal `parseXmlRules`
builds.  `percentage` is display-only in the source (a `parseFloat`
result never read by the matcher); the model keeps the raw trimmed text.
`originalXml` keeps the serialized node (the serializer is injective on
the node, so the node itself represents its serialization). -/
structure PriceRule where
  id : Nat
  «from» : Option String
  «to» : Option String
  percentage : Option String
  arrivalWeekdays : List (Option Int)
  minStay : Option Int
  maxStay : Option Int
  maxDaysToArrival : Option Int
  colour : String
  originalXml : Xml
deriving DecidableEq

/-- `parseXmlRules` on an already-DOM-parsed document (the
`parsererror` branch concerns strings that do not parse as XML at all and
is outside this model, whose input is a well-formed tree). -/
def parseXmlRules (doc : Xml) : List PriceRule :=
  (ruleNodes doc).mapIdx (fun idx node =>
    { id := idx + 1
      «from» := getTag node "from"
      «to» := getTag node "to"
      percentage :=
        if optStrTruthy (getTag node "percentage") then getTag node "percentage" else none
      arrivalWeekdays :=
        match getTag node "arrivalWeekdays" with
        | some s => if s != "" then (s.splitOn ",").map parseIntJs else []
        | none => []
      minStay := numField (getTag node "minStay")
      maxStay := numField (getTag node "maxStay")
      maxDaysToArrival := numField (getTag node "maxDaysToArrival")
      colour := colourFor idx
      originalXml := node })

/-! ## Booking evaluator -/

/-- The date-range check: `isBefore(arrival, ruleStart) || isAfter(arrival, ruleEnd)`. -/
def dateRangeFails (arrival ruleStart ruleEnd : Option Int) : Bool :=
  jsIsBefore arrival ruleStart || jsIsAfter arrival ruleEnd

/-- The stay-length check:
`(rule.minStay && length < rule.minStay) || (rule.maxStay && length > rule.maxStay)`.
A `minStay`/`maxStay` that is `null`, `NaN` or `0` is falsy and imposes
nothing. -/
def stayFails (minStay maxStay : Option Int) (length : Int) : Bool :=
  (match minStay with
   | some m => m != 0 && length < m
   | none => false) ||
  (match maxStay with
   | some m => m != 0 && m < length
   | none => false)

/-- The booking-window check: performed whenever `maxDaysToArrival != null`;
fails when `differenceInCalendarDays(arrival, bookingCreationDate)` exceeds
it (`NaN` gaps never exceed anything). -/
def windowFails (maxDaysToArrival : Option Int) (arrival : Option Int)
    (bookingCreationDate : Int) : Bool :=
  match maxDaysToArrival with
  | some m => jsGt (differenceInCalendarDays arrival bookingCreationDate) m
  | none => false

/-- The weekday check: with a non-empty `arrivalWeekdays`, fail unless the
converted weekday is a member (`Array.prototype.includes`, SameValueZero,
so a `NaN` weekday matches a `NaN` list entry). -/
def weekdayFails (arrivalWeekdays : List (Option Int)) (arrival : Option Int) : Bool :=
  if arrivalWeekdays.isEmpty then false
  else !(arrivalWeekdays.contains (jsWeekday arrival))

/-- `isBookingAllowedByRule(rule, startDate, length, bookingCreationDate)`.
`none` models the `TypeError` thrown by `parseISO(null)` when the rule's
`from` or `to` field is absent — reached only after the presence guard,
which returns `false` before any date is parsed. -/
def isBookingAllowedByRule (rule : PriceRule) (startDate : String)
    (length : Option Int) (bookingCreationDate : Int) : Option Bool :=
  if startDate = "" ∨ ¬ jsTruthyNum length then some false
  else
    match rule.«from», rule.«to» with
    | some f, some t =>
      if dateRangeFails (parseISO startDate) (parseISO f) (parseISO t) then some false
      else if stayFails rule.minStay rule.maxStay (length.getD 0) then some false
      else if windowFails rule.maxDaysToArrival (parseISO startDate) bookingCreationDate then
        some false
      else if weekdayFails rule.arrivalWeekdays (parseISO startDate) then some false
      else some true
    | _, _ => none

/-! ## Multi-booking aggregation and batch merge -/

/-- One row of the booking form: both fields are raw input strings
(`entry.length` is fed through `parseInt` only after the presence check). -/
structure BookingEntry where
  startDate : String
  length : String
deriving DecidableEq, Repr

/-- The `highlightedRuleIds` memo: iterate the booking entries in list
order, skip entries with an empty field, and for each rule (in rule-set
order) whose evaluation succeeds push its id unless already present.
`none` models an exception thrown by some evaluation aborting the whole
computation. -/
def highlightedRuleIds (entries : List BookingEntry) (rules : List PriceRule)
    (bookingDate : Int) : Option (List Nat) :=
  entries.foldlM
    (fun ids entry =>
      if entry.startDate = "" ∨ entry.length = "" then some ids
      else
        rules.foldlM
          (fun ids rule =>
            match isBookingAllowedByRule rule entry.startDate
                (parseIntJs entry.length) bookingDate with
            | some b =>
              some (if b = true ∧ rule.id ∉ ids then ids ++ [rule.id] else ids)
            | none => none)
          ids)
    []

/-- The multi-season merge in `handleFetchFromAPI`: concatenate the
batches in fetch order, then
`allRules.map((rule, index) => ({ ...rule, id: index + 1 }))`. -/
def mergeRuleBatches (batches : List (List PriceRule)) : List PriceRule :=
  batches.flatten.mapIdx (fun i r => { r with id := i + 1 })

/-! ## Spec-side definitions

Definitions transcribed from the specification's wording, to be compared
with the source-derived ones above. -/

/-- Modelled from the spec: extract a named child field by tag name, first
matching child winning, a missing field yielding `null`/absent. -/
def extractChildField (r : Xml) (t : String) : Option String :=
  (r.children.find? (fun ch => ch.tag == t)).map (fun ch => ch.textContent.trim)

/-- Modelled from the spec: the `PriceRule` record the parser should build
for the rule element `r` at 0-based position `i` of the flattened
sequence — `id` is the 1-based position, each named child field is
extracted by tag name with the first matching child winning, and the
colour cycles through the palette by parse index. -/
def specRecord (i : Nat) (r : Xml) : PriceRule :=
  { id := i + 1
    «from» := extractChildField r "from"
    «to» := extractChildField r "to"
    percentage :=
      if optStrTruthy (extractChildField r "percentage") then extractChildField r "percentage"
      else none
    arrivalWeekdays :=
      match extractChildField r "arrivalWeekdays" with
      | some s => if s != "" then (s.splitOn ",").map parseIntJs else []
      | none => []
    minStay := numField (extractChildField r "minStay")
    maxStay := numField (extractChildField r "maxStay")
    maxDaysToArrival := numField (extractChildField r "maxDaysToArrival")
    colour := colourFor i
    originalXml := r }

/-- Modelled from the spec: the rule-convention weekday (`1 = Monday ..
7 = Sunday`) of an epoch day, anchored at 1970-01-05, a Monday. -/
def isoWeekday (e : Int) : Int :=
  (e - 4) % 7 + 1

/-- Modelled from the spec: append an id unless already seen. -/
def insertNew (acc : List Nat) (x : Nat) : List Nat :=
  if x ∈ acc then acc else acc ++ [x]

/-- Modelled from the spec: the deduplicated, insertion-ordered
(first-seen) union of the per-booking id lists. -/
def firstSeenUnion (ls : List (List Nat)) : List Nat :=
  ls.foldl (fun acc l => l.foldl insertNew acc) []

/-- Modelled from the spec: the ordered list of ids of the rules matching
one booking entry (the batch query). -/
def matchedIds (entry : BookingEntry) (rules : List PriceRule)
    (bookingDate : Int) : List Nat :=
  rules.filterMap (fun r =>
    if isBookingAllowedByRule r entry.startDate (parseIntJs entry.length) bookingDate
        = some true
    then some r.id else none)

/-! ## Theorems -/

/-- With an empty arrival date or a falsy stay length the evaluator's
guard fires and nothing else runs. -/
theorem eval_falsy (rule : PriceRule) (startDate : String)
    (length : Option Int) (d : Int)
    (h : startDate = "" ∨ length = none ∨ length = some 0) :
    isBookingAllowedByRule rule startDate length d = some false := by
  rcases h with h | h | h <;> simp [isBookingAllowedByRule, h, jsTruthyNum]

/-- With both rule dates present (as strings of any content) the
evaluation always reaches a verdict. -/
theorem eval_total (rule : PriceRule) (s : String) (l : Option Int) (d : Int)
    (hf : rule.«from».isSome) (ht : rule.«to».isSome) :
    ∃ b, isBookingAllowedByRule rule s l d = some b := by
  obtain ⟨f, hf⟩ := Option.isSome_iff_exists.mp hf
  obtain ⟨t, ht⟩ := Option.isSome_iff_exists.mp ht
  unfold isBookingAllowedByRule
  split
  · exact ⟨false, rfl⟩
  · rw [hf, ht]
    dsimp only
    split
    · exact ⟨false, rfl⟩
    · split
      · exact ⟨false, rfl⟩
      · split
        · exact ⟨false, rfl⟩
        · split
          · exact ⟨false, rfl⟩
          · exact ⟨true, rfl⟩

/-- C1: with `maxDaysToArrival` set (a non-negative integer, per the data
model) and a parseable arrival date, the booking-window check fails exactly
when `gap = calendarDaysBetween(referenceDate, arrivalDate)` exceeds
`maxDaysToArrival`; a negative gap passes, and a gap equal to the bound
passes. -/
theorem bookingWindow_gap_boundary (startDate : String) (m a bookingDate : Int)
    (hm : 0 ≤ m) (ha : parseISO startDate = some a) :
    (windowFails (some m) (parseISO startDate) bookingDate = true ↔ m < a - bookingDate)
    ∧ (a - bookingDate < 0 → windowFails (some m) (parseISO startDate) bookingDate = false)
    ∧ (a - bookingDate = m → windowFails (some m) (parseISO startDate) bookingDate = false) := by
  refine ⟨?_, ?_, ?_⟩ <;>
    simp [windowFails, jsGt, differenceInCalendarDays, ha] <;> omega

/-- C1 witness: reference date 2025-01-01 (epoch day 20089),
`maxDaysToArrival = 10`; arrival 2025-01-11 (gap 10) passes the check,
arrival 2025-01-12 (gap 11) fails it. -/
theorem bookingWindow_gap_boundary_witness :
    windowFails (some 10) (parseISO "2025-01-11") 20089 = false
    ∧ windowFails (some 10) (parseISO "2025-01-12") 20089 = true := by
  refine ⟨?_, ?_⟩
  · exact (bookingWindow_gap_boundary "2025-01-11" 10 20099 20089 (by decide)
      (by decide)).2.2 (by decide)
  · exact (bookingWindow_gap_boundary "2025-01-12" 10 20100 20089 (by decide)
      (by decide)).1.mpr (by decide)

/-- C2: with parseable `from`/`to`/arrival dates, the date-range check
fails exactly when the arrival is strictly before `validFrom` or strictly
after `validTo`; both ends are inclusive, so (for a non-empty range) an
arrival equal to either end passes. -/
theorem dateRange_inclusive (f t s : String) (rs re a : Int)
    (hf : parseISO f = some rs) (ht : parseISO t = some re)
    (hs : parseISO s = some a) :
    (dateRangeFails (parseISO s) (parseISO f) (parseISO t) = true ↔ (a < rs ∨ re < a))
    ∧ (rs ≤ re → a = rs → dateRangeFails (parseISO s) (parseISO f) (parseISO t) = false)
    ∧ (rs ≤ re → a = re → dateRangeFails (parseISO s) (parseISO f) (parseISO t) = false) := by
  refine ⟨?_, ?_, ?_⟩ <;>
    simp [dateRangeFails, jsIsBefore, jsIsAfter, hf, ht, hs] <;> omega

/-- C2 witness: range 2025-06-01 .. 2025-08-31; arrivals on both ends pass
the range check; one day before `validFrom` and one day after `validTo`
fail it. -/
theorem dateRange_inclusive_witness :
    dateRangeFails (parseISO "2025-06-01") (parseISO "2025-06-01") (parseISO "2025-08-31") = false
    ∧ dateRangeFails (parseISO "2025-08-31") (parseISO "2025-06-01") (parseISO "2025-08-31") = false
    ∧ dateRangeFails (parseISO "2025-05-31") (parseISO "2025-06-01") (parseISO "2025-08-31") = true
    ∧ dateRangeFails (parseISO "2025-09-01") (parseISO "2025-06-01") (parseISO "2025-08-31") = true := by
  refine ⟨?_, ?_, ?_, ?_⟩
  · exact (dateRange_inclusive "2025-06-01" "2025-08-31" "2025-06-01" 20240 20331 20240
      (by decide) (by decide) (by decide)).2.1 (by decide) rfl
  · exact (dateRange_inclusive "2025-06-01" "2025-08-31" "2025-08-31" 20240 20331 20331
      (by decide) (by decide) (by decide)).2.2 (by decide) rfl
  · exact (dateRange_inclusive "2025-06-01" "2025-08-31" "2025-05-31" 20240 20331 20239
      (by decide) (by decide) (by decide)).1.mpr (by decide)
  · exact (dateRange_inclusive "2025-06-01" "2025-08-31" "2025-09-01" 20240 20331 20332
      (by decide) (by decide) (by decide)).1.mpr (by decide)

/-- C4: when the set stay bounds are positive integers, the stay-length
check fails exactly when `stayLength < minStay` (with `minStay` set) or
`stayLength > maxStay` (with `maxStay` set); both bounds are inclusive and
an absent bound imposes no constraint. -/
theorem stay_bounds (minS maxS : Option Int) (l : Int)
    (hmin : ∀ m, minS = some m → 0 < m) (hmax : ∀ m, maxS = some m → 0 < m) :
    stayFails minS maxS l = true ↔
      (∃ m, minS = some m ∧ l < m) ∨ (∃ m, maxS = some m ∧ m < l) := by
  cases minS with
  | none =>
    cases maxS with
    | none => simp [stayFails]
    | some M => have hM := hmax M rfl; simp [stayFails]; omega
  | some m =>
    have hm := hmin m rfl
    cases maxS with
    | none => simp [stayFails]; omega
    | some M => have hM := hmax M rfl; simp [stayFails]; omega

/-- C4 witness: `minStay = 3`, `maxStay = 7`; stay lengths 2 and 8 fail
the stay check, 3 and 7 pass. -/
theorem stay_bounds_witness :
    stayFails (some 3) (some 7) 2 = true ∧ stayFails (some 3) (some 7) 8 = true
    ∧ stayFails (some 3) (some 7) 3 = false ∧ stayFails (some 3) (some 7) 7 = false := by
  have h3 : ∀ m, (some 3 : Option Int) = some m → 0 < m := by intro m h; cases h; decide
  have h7 : ∀ m, (some 7 : Option Int) = some m → 0 < m := by intro m h; cases h; decide
  refine ⟨?_, ?_, ?_, ?_⟩
  · exact (stay_bounds (some 3) (some 7) 2 h3 h7).mpr (Or.inl ⟨3, rfl, by decide⟩)
  · exact (stay_bounds (some 3) (some 7) 8 h3 h7).mpr (Or.inr ⟨7, rfl, by decide⟩)
  · have := (stay_bounds (some 3) (some 7) 3 h3 h7)
    cases hb : stayFails (some 3) (some 7) 3 with
    | false => rfl
    | true => rcases this.mp hb with ⟨m, hm, _⟩ | ⟨m, hm, _⟩ <;> cases hm <;> omega
  · have := (stay_bounds (some 3) (some 7) 7 h3 h7)
    cases hb : stayFails (some 3) (some 7) 7 with
    | false => rfl
    | true => rcases this.mp hb with ⟨m, hm, _⟩ | ⟨m, hm, _⟩ <;> cases hm <;> omega

/-- C7: with an absent/falsy arrival date or stay length the evaluator
returns `false` immediately, for every rule — in particular even for a
rule whose `from`/`to` fields are absent, whose evaluation past the guard
would throw; incomplete booking input is "does not match", never an
error. -/
theorem incomplete_booking_false (rule : PriceRule) (startDate : String)
    (length : Option Int) (d : Int)
    (h : startDate = "" ∨ length = none ∨ length = some 0) :
    isBookingAllowedByRule rule startDate length d = some false :=
  eval_falsy rule startDate length d h

/-- C7 witness: a rule with absent `from`/`to` against an empty arrival
date, an absent stay length and a zero stay length — all immediately
`false`. -/
theorem incomplete_booking_false_witness :
    isBookingAllowedByRule
      { id := 1, «from» := none, «to» := none, percentage := none,
        arrivalWeekdays := [], minStay := none, maxStay := none,
        maxDaysToArrival := none, colour := "", originalXml := .elem "rule" "" [] }
      "" (some 3) 20089 = some false
    ∧ isBookingAllowedByRule
      { id := 1, «from» := none, «to» := none, percentage := none,
        arrivalWeekdays := [], minStay := none, maxStay := none,
        maxDaysToArrival := none, colour := "", originalXml := .elem "rule" "" [] }
      "2025-06-01" none 20089 = some false
    ∧ isBookingAllowedByRule
      { id := 1, «from» := none, «to» := none, percentage := none,
        arrivalWeekdays := [], minStay := none, maxStay := none,
        maxDaysToArrival := none, colour := "", originalXml := .elem "rule" "" [] }
      "2025-06-01" (some 0) 20089 = some false :=
  ⟨incomplete_booking_false _ _ _ _ (Or.inl rfl),
   incomplete_booking_false _ _ _ _ (Or.inr (Or.inl rfl)),
   incomplete_booking_false _ _ _ _ (Or.inr (Or.inr rfl))⟩

/-- The JavaScript weekday conversion agrees with the rule convention
`1 = Monday .. 7 = Sunday` on every valid date. -/
theorem jsWeekday_some (a : Int) : jsWeekday (some a) = some (isoWeekday a) := by
  simp only [jsWeekday, jsGetDay, isoWeekday, Option.some.injEq]
  split <;> omega

/-- A positive match implies the weekday check did not fail. -/
theorem weekdayFails_false_of_match {rule : PriceRule} {s : String}
    {l : Option Int} {d : Int}
    (h : isBookingAllowedByRule rule s l d = some true) :
    weekdayFails rule.arrivalWeekdays (parseISO s) = false := by
  unfold isBookingAllowedByRule at h
  split at h
  · simp at h
  · split at h
    · split at h
      · simp at h
      · split at h
        · simp at h
        · split at h
          · simp at h
          · split at h
            · simp at h
            · rename_i hw
              simpa using hw
    · simp at h

/-- C3: with a non-empty `arrivalWeekdays` set, a booking matches only if
the arrival date's weekday — in the `1 = Monday .. 7 = Sunday` convention —
is a member of the set; an empty set imposes no weekday restriction. -/
theorem weekday_restriction :
    (∀ (rule : PriceRule) (s : String) (l : Option Int) (d a : Int),
       rule.arrivalWeekdays ≠ [] → parseISO s = some a →
       isBookingAllowedByRule rule s l d = some true →
       some (isoWeekday a) ∈ rule.arrivalWeekdays)
    ∧ ∀ arrival : Option Int, weekdayFails [] arrival = false := by
  constructor
  · intro rule s l d a hne ha hm
    have hw := weekdayFails_false_of_match hm
    simp [weekdayFails, ha, jsWeekday_some, hne] at hw
    exact hw
  · intro arrival
    simp [weekdayFails]

/-- C3 witness: `arrivalWeekdays = {6, 7}` (Sat/Sun) never matches the
Tuesday arrival 2025-01-07 (epoch day 20095, `isoWeekday = 2`), whatever
the other fields allow. -/
theorem weekday_restriction_witness :
    isBookingAllowedByRule
      { id := 1, «from» := some "2025-01-01", «to» := some "2025-12-31",
        percentage := none, arrivalWeekdays := [some 6, some 7],
        minStay := none, maxStay := none, maxDaysToArrival := none,
        colour := "", originalXml := .elem "rule" "" [] }
      "2025-01-07" (some 3) 20089 ≠ some true := fun hm =>
  absurd
    (weekday_restriction.1 _ "2025-01-07" (some 3) 20089 20095
      (by decide) (by decide) hm)
    (by decide)

/-- The stay check with a zero lower bound is the check with no lower
bound: `0` is falsy. -/
theorem stayFails_minStay_zero (maxS : Option Int) (l : Int) :
    stayFails (some 0) maxS l = stayFails none maxS l := by
  simp [stayFails]

/-- The stay check with a zero upper bound is the check with no upper
bound: `0` is falsy. -/
theorem stayFails_maxStay_zero (minS : Option Int) (l : Int) :
    stayFails minS (some 0) l = stayFails minS none l := by
  simp [stayFails]

/-- C10: zero-valued optional numeric fields are treated asymmetrically —
`minStay = 0` and `maxStay = 0` behave exactly as if the field were
absent (the stay check's truthiness test treats `0` as unset), whereas
`maxDaysToArrival = 0` is enforced: any booking whose calendar-day gap
from the reference date to a parseable arrival date is positive fails. -/
theorem zero_valued_fields_asymmetry :
    (∀ (rule : PriceRule) (s : String) (l : Option Int) (d : Int),
       isBookingAllowedByRule { rule with minStay := some 0 } s l d
         = isBookingAllowedByRule { rule with minStay := none } s l d)
    ∧ (∀ (rule : PriceRule) (s : String) (l : Option Int) (d : Int),
       isBookingAllowedByRule { rule with maxStay := some 0 } s l d
         = isBookingAllowedByRule { rule with maxStay := none } s l d)
    ∧ (∀ (rule : PriceRule) (s : String) (l : Option Int) (d a : Int) (f t : String),
       rule.«from» = some f → rule.«to» = some t →
       rule.maxDaysToArrival = some 0 →
       parseISO s = some a → 0 < a - d →
       isBookingAllowedByRule rule s l d = some false) := by
  refine ⟨?_, ?_, ?_⟩
  · intro rule s l d
    simp [isBookingAllowedByRule, stayFails_minStay_zero]
  · intro rule s l d
    simp [isBookingAllowedByRule, stayFails_maxStay_zero]
  · intro rule s l d a f t hf ht hmax ha hgap
    have hw : windowFails rule.maxDaysToArrival (parseISO s) d = true := by
      simp [windowFails, hmax, ha, jsGt, differenceInCalendarDays]
      omega
    unfold isBookingAllowedByRule
    split
    · rfl
    · rw [hf, ht]
      simp only [hw]
      split
      · rfl
      · split
        · rfl
        · simp

/-- C10 witness: on a rule over 2025 with all optional numerics zero,
`minStay = 0` and `maxStay = 0` behave as absent, while
`maxDaysToArrival = 0` rejects an arrival one day after the reference
date. -/
theorem zero_valued_fields_asymmetry_witness :
    isBookingAllowedByRule
      { id := 1, «from» := some "2025-01-01", «to» := some "2025-12-31",
        percentage := none, arrivalWeekdays := [], minStay := some 0,
        maxStay := none, maxDaysToArrival := none, colour := "",
        originalXml := .elem "rule" "" [] }
      "2025-06-01" (some 3) 20089
      = isBookingAllowedByRule
      { id := 1, «from» := some "2025-01-01", «to» := some "2025-12-31",
        percentage := none, arrivalWeekdays := [], minStay := none,
        maxStay := none, maxDaysToArrival := none, colour := "",
        originalXml := .elem "rule" "" [] }
      "2025-06-01" (some 3) 20089
    ∧ isBookingAllowedByRule
      { id := 1, «from» := some "2025-01-01", «to» := some "2025-12-31",
        percentage := none, arrivalWeekdays := [], minStay := none,
        maxStay := some 0, maxDaysToArrival := none, colour := "",
        originalXml := .elem "rule" "" [] }
      "2025-06-01" (some 3) 20089
      = isBookingAllowedByRule
      { id := 1, «from» := some "2025-01-01", «to» := some "2025-12-31",
        percentage := none, arrivalWeekdays := [], minStay := none,
        maxStay := none, maxDaysToArrival := none, colour := "",
        originalXml := .elem "rule" "" [] }
      "2025-06-01" (some 3) 20089
    ∧ isBookingAllowedByRule
      { id := 1, «from» := some "2025-01-01", «to» := some "2025-12-31",
        percentage := none, arrivalWeekdays := [], minStay := none,
        maxStay := none, maxDaysToArrival := some 0, colour := "",
        originalXml := .elem "rule" "" [] }
      "2025-01-02" (some 3) 20089 = some false := by
  refine ⟨?_, ?_, ?_⟩
  · exact zero_valued_fields_asymmetry.1
      { id := 1, «from» := some "2025-01-01", «to» := some "2025-12-31",
        percentage := none, arrivalWeekdays := [], minStay := none,
        maxStay := none, maxDaysToArrival := none, colour := "",
        originalXml := .elem "rule" "" [] } "2025-06-01" (some 3) 20089
  · exact zero_valued_fields_asymmetry.2.1
      { id := 1, «from» := some "2025-01-01", «to» := some "2025-12-31",
        percentage := none, arrivalWeekdays := [], minStay := none,
        maxStay := none, maxDaysToArrival := none, colour := "",
        originalXml := .elem "rule" "" [] } "2025-06-01" (some 3) 20089
  · exact zero_valued_fields_asymmetry.2.2
      { id := 1, «from» := some "2025-01-01", «to» := some "2025-12-31",
        percentage := none, arrivalWeekdays := [], minStay := none,
        maxStay := none, maxDaysToArrival := some 0, colour := "",
        originalXml := .elem "rule" "" [] }
      "2025-01-02" (some 3) 20089 20090 "2025-01-01" "2025-12-31"
      rfl rfl rfl (by decide) (by decide)

/-- C5 counterexample: a rule whose `to` field is the unparsable date
string `"not-a-date"`, evaluated against a complete booking, does not fail
with any error — it returns the boolean verdict `true` (the invalid date
makes `isAfter` false, so the range check passes vacuously). -/
theorem unparsableDate_returns_boolean :
    isBookingAllowedByRule
      { id := 1, «from» := some "2025-01-01", «to» := some "not-a-date",
        percentage := none, arrivalWeekdays := [], minStay := none,
        maxStay := none, maxDaysToArrival := none, colour := "",
        originalXml := .elem "rule" "" [] }
      "2025-06-01" (some 3) 20089 = some true := by decide

/-- C5 amended: whenever the rule's `from` and `to` fields are present
strings — however unparsable as dates — the evaluation returns a boolean
verdict and raises no error; invalid dates make every date comparison
false, so the affected checks pass vacuously. -/
theorem unparsable_dates_no_error (rule : PriceRule) (s : String)
    (l : Option Int) (d : Int)
    (hf : rule.«from».isSome) (ht : rule.«to».isSome) :
    ∃ b, isBookingAllowedByRule rule s l d = some b :=
  eval_total rule s l d hf ht

/-- C5 amended witness: both dates of the rule unparsable, booking
complete — the evaluation still yields a boolean verdict. -/
theorem unparsable_dates_no_error_witness :
    (some "garbage" : Option String).isSome = true
    ∧ ∃ b, isBookingAllowedByRule
        { id := 1, «from» := some "garbage", «to» := some "also-garbage",
          percentage := none, arrivalWeekdays := [], minStay := some 2,
          maxStay := some 9, maxDaysToArrival := some 30, colour := "",
          originalXml := .elem "rule" "" [] }
        "2025-06-01" (some 3) 20089 = some b :=
  ⟨by decide,
   unparsable_dates_no_error
     { id := 1, «from» := some "garbage", «to» := some "also-garbage",
       percentage := none, arrivalWeekdays := [], minStay := some 2,
       maxStay := some 9, maxDaysToArrival := some 30, colour := "",
       originalXml := .elem "rule" "" [] }
     "2025-06-01" (some 3) 20089 (by decide) (by decide)⟩

theorem Xml.descendants_eq (e : Xml) :
    e.descendants = Xml.descendantsList e.children := by
  cases e
  rfl

theorem head?_filter_eq_find? {α : Type _} (p : α → Bool) (l : List α) :
    (l.filter p).head? = l.find? p := by
  induction l with
  | nil => rfl
  | cons a l ih =>
    by_cases h : p a <;> simp [List.filter_cons, List.find?_cons, h, ih]

/-- A list of childless elements is its own descendant list. -/
theorem descendantsList_flat (cs : List Xml) (h : ∀ c ∈ cs, c.children = []) :
    Xml.descendantsList cs = cs := by
  induction cs with
  | nil => rfl
  | cons c cs ih =>
    have hc := h c (List.mem_cons_self c cs)
    rw [Xml.descendantsList, Xml.descendants_eq, hc]
    simp [Xml.descendantsList, ih (fun x hx => h x (List.mem_cons_of_mem _ hx))]

/-- On a rule element whose children are leaves, the parser's
descendant-order `getTag` lookup is exactly the spec's first-matching-child
extraction. -/
theorem getTag_flat (r : Xml) (t : String)
    (h : ∀ c ∈ r.children, c.children = []) :
    getTag r t = extractChildField r t := by
  unfold getTag extractChildField Xml.byTagName
  rw [Xml.descendants_eq, descendantsList_flat _ h, head?_filter_eq_find?]

/-- Scanning the descendant list of a flat sequence of `rule` elements
finds no `priceRules` element and filters back exactly the `rule`
elements. -/
theorem ruleList_scan (rs : List Xml)
    (hr : ∀ r ∈ rs, r.tag = "rule")
    (hch : ∀ r ∈ rs, ∀ ch ∈ r.children,
      ch.children = [] ∧ ch.tag ≠ "rule" ∧ ch.tag ≠ "priceRules") :
    (Xml.descendantsList rs).find? (fun e => e.tag == "priceRules") = none
    ∧ (Xml.descendantsList rs).filter (fun e => e.tag == "rule") = rs := by
  induction rs with
  | nil => exact ⟨rfl, rfl⟩
  | cons r rs ih =>
    obtain ⟨ihf, ihl⟩ := ih (fun x hx => hr x (List.mem_cons_of_mem _ hx))
      (fun x hx => hch x (List.mem_cons_of_mem _ hx))
    have hrt := hr r (List.mem_cons_self r rs)
    have hchr := hch r (List.mem_cons_self r rs)
    have hflat : ∀ c ∈ r.children, c.children = [] := fun c hc => (hchr c hc).1
    have hnopr : (r.children).find? (fun e => e.tag == "priceRules") = none :=
      List.find?_eq_none.mpr (fun x hx => by simp [(hchr x hx).2.2])
    have hnorl : (r.children).filter (fun e => e.tag == "rule") = [] :=
      List.filter_eq_nil_iff.mpr (fun x hx => by simp [(hchr x hx).2.1])
    rw [Xml.descendantsList, Xml.descendants_eq, descendantsList_flat _ hflat]
    constructor
    · simp [List.find?_cons, hrt, List.find?_append, hnopr, ihf]
    · simp [List.filter_cons, hrt, List.filter_append, hnorl, ihl]

/-- A bare collection: the rule elements sit directly under a root whose
tag is neither `rule` nor `priceRules`. -/
theorem ruleNodes_bare (c tx : String) (rs : List Xml)
    (hc1 : c ≠ "rule") (hc2 : c ≠ "priceRules")
    (hr : ∀ r ∈ rs, r.tag = "rule")
    (hch : ∀ r ∈ rs, ∀ ch ∈ r.children,
      ch.children = [] ∧ ch.tag ≠ "rule" ∧ ch.tag ≠ "priceRules") :
    ruleNodes (Xml.elem c tx rs) = rs := by
  obtain ⟨hf, hl⟩ := ruleList_scan rs hr hch
  have hdoc : docElements (Xml.elem c tx rs)
      = Xml.elem c tx rs :: Xml.descendantsList rs := by
    unfold docElements
    rw [Xml.descendants_eq]
    rfl
  unfold ruleNodes
  rw [hdoc, List.find?_cons_of_neg _ (by simp [Xml.tag, hc2]), hf]
  dsimp only
  rw [List.filter_cons_of_neg (by simp [Xml.tag, hc1])]
  exact hl

/-- The nested shape: the rule elements sit one level down, under a
container element (any tag other than `rule`) below the root. -/
theorem ruleNodes_nested (c k tx1 tx2 : String) (rs : List Xml)
    (hc1 : c ≠ "rule") (hc2 : c ≠ "priceRules") (hk : k ≠ "rule")
    (hr : ∀ r ∈ rs, r.tag = "rule")
    (hch : ∀ r ∈ rs, ∀ ch ∈ r.children,
      ch.children = [] ∧ ch.tag ≠ "rule" ∧ ch.tag ≠ "priceRules") :
    ruleNodes (Xml.elem c tx1 [Xml.elem k tx2 rs]) = rs := by
  obtain ⟨hf, hl⟩ := ruleList_scan rs hr hch
  have hdoc : docElements (Xml.elem c tx1 [Xml.elem k tx2 rs])
      = Xml.elem c tx1 [Xml.elem k tx2 rs]
        :: Xml.elem k tx2 rs :: Xml.descendantsList rs := by
    unfold docElements
    rw [Xml.descendants_eq]
    simp [Xml.children, Xml.descendantsList, Xml.descendants_eq]
  by_cases hkp : k = "priceRules"
  · subst hkp
    unfold ruleNodes
    rw [hdoc, List.find?_cons_of_neg _ (by simp [Xml.tag, hc2]),
      List.find?_cons_of_pos _ (by simp [Xml.tag])]
    dsimp only
    unfold Xml.byTagName
    rw [Xml.descendants_eq]
    exact hl
  · unfold ruleNodes
    rw [hdoc, List.find?_cons_of_neg _ (by simp [Xml.tag, hc2]),
      List.find?_cons_of_neg _ (by simp [Xml.tag, hkp]), hf]
    dsimp only
    rw [List.filter_cons_of_neg (by simp [Xml.tag, hc1]),
      List.filter_cons_of_neg (by simp [Xml.tag, hk])]
    exact hl

theorem mapIdx_congr_mem {α β : Type _} (f g : Nat → α → β) :
    ∀ l : List α, (∀ i a, a ∈ l → f i a = g i a) → l.mapIdx f = l.mapIdx g := by
  intro l
  induction l generalizing f g with
  | nil => intro _; rfl
  | cons a l ih =>
    intro h
    rw [List.mapIdx_cons, List.mapIdx_cons, h 0 a (List.mem_cons_self a l),
      ih _ _ (fun i x hx => h (i + 1) x (List.mem_cons_of_mem _ hx))]

/-- Parsing a document whose rule elements are flat produces exactly the
spec-side records. -/
theorem parseXmlRules_of_ruleNodes {doc : Xml} {rs : List Xml}
    (h : ruleNodes doc = rs)
    (hflat : ∀ r ∈ rs, ∀ c ∈ r.children, c.children = []) :
    parseXmlRules doc = rs.mapIdx specRecord := by
  unfold parseXmlRules
  rw [h]
  apply mapIdx_congr_mem
  intro i r hrm
  have hgt : ∀ t, getTag r t = extractChildField r t :=
    fun t => getTag_flat r t (hflat r hrm)
  simp only [hgt, specRecord]

/-- C6: on a well-formed document of either accepted shape — the rule
elements directly under the root, or nested one level under a container
element — parsing yields exactly one `PriceRule` per rule element, in
document order, with `id` the 1-based position in the flattened sequence,
each named child field extracted by tag name with the first matching child
winning (`specRecord` / `extractChildField`), and missing optional fields
absent. -/
theorem parse_structure (c k tx1 tx2 tx3 : String) (rs : List Xml)
    (hc1 : c ≠ "rule") (hc2 : c ≠ "priceRules") (hk : k ≠ "rule")
    (hr : ∀ r ∈ rs, r.tag = "rule")
    (hch : ∀ r ∈ rs, ∀ ch ∈ r.children,
      ch.children = [] ∧ ch.tag ≠ "rule" ∧ ch.tag ≠ "priceRules") :
    parseXmlRules (Xml.elem c tx1 rs) = rs.mapIdx specRecord
    ∧ parseXmlRules (Xml.elem c tx2 [Xml.elem k tx3 rs]) = rs.mapIdx specRecord
    ∧ (parseXmlRules (Xml.elem c tx1 rs)).length = rs.length
    ∧ ∀ i (h : i < (parseXmlRules (Xml.elem c tx1 rs)).length),
        ((parseXmlRules (Xml.elem c tx1 rs))[i]).id = i + 1 := by
  have hflat : ∀ r ∈ rs, ∀ ch ∈ r.children, ch.children = [] :=
    fun r hrm ch hc => (hch r hrm ch hc).1
  have h1 : parseXmlRules (Xml.elem c tx1 rs) = rs.mapIdx specRecord :=
    parseXmlRules_of_ruleNodes (ruleNodes_bare c tx1 rs hc1 hc2 hr hch) hflat
  have h2 : parseXmlRules (Xml.elem c tx2 [Xml.elem k tx3 rs]) = rs.mapIdx specRecord :=
    parseXmlRules_of_ruleNodes (ruleNodes_nested c k tx2 tx3 rs hc1 hc2 hk hr hch) hflat
  refine ⟨h1, h2, ?_, ?_⟩
  · rw [h1, List.length_mapIdx]
  · intro i h
    simp only [h1] at h ⊢
    rw [List.getElem_mapIdx]
    simp [specRecord]

/-- C6 witness: a two-rule document, parsed in both shapes. -/
theorem parse_structure_witness :
    ("rules" : String) ≠ "rule"
    ∧ (∀ r ∈ [Xml.elem "rule" "" [Xml.elem "from" "2025-06-01" [],
                Xml.elem "to" "2025-08-31" [], Xml.elem "minStay" "3" []],
              Xml.elem "rule" "" [Xml.elem "from" "2025-09-01" [],
                Xml.elem "to" "2025-12-31" []]], r.tag = "rule")
    ∧ parseXmlRules (Xml.elem "rules" ""
        [Xml.elem "rule" "" [Xml.elem "from" "2025-06-01" [],
          Xml.elem "to" "2025-08-31" [], Xml.elem "minStay" "3" []],
         Xml.elem "rule" "" [Xml.elem "from" "2025-09-01" [],
          Xml.elem "to" "2025-12-31" []]])
      = [Xml.elem "rule" "" [Xml.elem "from" "2025-06-01" [],
          Xml.elem "to" "2025-08-31" [], Xml.elem "minStay" "3" []],
         Xml.elem "rule" "" [Xml.elem "from" "2025-09-01" [],
          Xml.elem "to" "2025-12-31" []]].mapIdx specRecord
    ∧ parseXmlRules (Xml.elem "response" ""
        [Xml.elem "priceRules" ""
          [Xml.elem "rule" "" [Xml.elem "from" "2025-06-01" [],
            Xml.elem "to" "2025-08-31" [], Xml.elem "minStay" "3" []],
           Xml.elem "rule" "" [Xml.elem "from" "2025-09-01" [],
            Xml.elem "to" "2025-12-31" []]]])
      = [Xml.elem "rule" "" [Xml.elem "from" "2025-06-01" [],
          Xml.elem "to" "2025-08-31" [], Xml.elem "minStay" "3" []],
         Xml.elem "rule" "" [Xml.elem "from" "2025-09-01" [],
          Xml.elem "to" "2025-12-31" []]].mapIdx specRecord := by
  have h := parse_structure "rules" "priceRules" "" "" ""
    [Xml.elem "rule" "" [Xml.elem "from" "2025-06-01" [],
      Xml.elem "to" "2025-08-31" [], Xml.elem "minStay" "3" []],
     Xml.elem "rule" "" [Xml.elem "from" "2025-09-01" [],
      Xml.elem "to" "2025-12-31" []]]
    (by decide) (by decide) (by decide) (by decide) (by decide)
  have h' := parse_structure "response" "priceRules" "" "" ""
    [Xml.elem "rule" "" [Xml.elem "from" "2025-06-01" [],
      Xml.elem "to" "2025-08-31" [], Xml.elem "minStay" "3" []],
     Xml.elem "rule" "" [Xml.elem "from" "2025-09-01" [],
      Xml.elem "to" "2025-12-31" []]]
    (by decide) (by decide) (by decide) (by decide) (by decide)
  exact ⟨by decide, by decide, h.1, h'.2.1⟩

/-- Every record built by the parser carries the palette colour of its
0-based parse index. -/
theorem parseXmlRules_colour (doc : Xml) (k : Nat)
    (h : k < (parseXmlRules doc).length) :
    ((parseXmlRules doc)[k]).colour = colourFor k := by
  unfold parseXmlRules at h ⊢
  rw [List.getElem_mapIdx]

/-- C9: merging fetch batches concatenates them in fetch order and
re-assigns each rule's `id` to its 1-based position in the concatenation;
every other field — `from`, `to`, `percentage`, `arrivalWeekdays`,
`minStay`, `maxStay`, `maxDaysToArrival`, `colour`, `originalXml` — is
left unchanged (captured by the record-update equality), and for parsed
batches the `colour` still reflects the rule's original per-batch parse
index, not the re-assigned id. -/
theorem merge_reassigns_ids_only (batches : List (List PriceRule))
    (docs : List Xml) (hb : batches = docs.map parseXmlRules) :
    (mergeRuleBatches batches).length = batches.flatten.length
    ∧ (∀ i (h : i < batches.flatten.length),
        (mergeRuleBatches batches).get ⟨i, by simpa [mergeRuleBatches] using h⟩
          = { batches.flatten.get ⟨i, h⟩ with id := i + 1 })
    ∧ (∀ b ∈ batches, ∀ k (h : k < b.length),
        (b[k]).colour = colourFor k) := by
  refine ⟨by simp [mergeRuleBatches], ?_, ?_⟩
  · intro i h
    unfold mergeRuleBatches
    simp only [List.get_eq_getElem]
    rw [List.getElem_mapIdx]
  · intro b hbm k h
    subst hb
    obtain ⟨doc, _, hdoc⟩ := List.mem_map.mp hbm
    subst hdoc
    exact parseXmlRules_colour doc k h

/-- C9 witness: two parsed batches of one and two field-less rules,
merged. -/
theorem merge_reassigns_ids_only_witness :
    ([Xml.elem "rules" "" [Xml.elem "rule" "" []],
      Xml.elem "rules" "" [Xml.elem "rule" "" [], Xml.elem "rule" "" []]].map parseXmlRules
      = [Xml.elem "rules" "" [Xml.elem "rule" "" []],
         Xml.elem "rules" "" [Xml.elem "rule" "" [],
           Xml.elem "rule" "" []]].map parseXmlRules)
    ∧ ((mergeRuleBatches ([Xml.elem "rules" "" [Xml.elem "rule" "" []],
          Xml.elem "rules" "" [Xml.elem "rule" "" [],
            Xml.elem "rule" "" []]].map parseXmlRules)).length
        = ([Xml.elem "rules" "" [Xml.elem "rule" "" []],
           Xml.elem "rules" "" [Xml.elem "rule" "" [],
             Xml.elem "rule" "" []]].map parseXmlRules).flatten.length
      ∧ (∀ i (h : i < ([Xml.elem "rules" "" [Xml.elem "rule" "" []],
            Xml.elem "rules" "" [Xml.elem "rule" "" [],
              Xml.elem "rule" "" []]].map parseXmlRules).flatten.length),
          (mergeRuleBatches ([Xml.elem "rules" "" [Xml.elem "rule" "" []],
            Xml.elem "rules" "" [Xml.elem "rule" "" [],
              Xml.elem "rule" "" []]].map parseXmlRules)).get ⟨i, by
                simpa [mergeRuleBatches] using h⟩
            = { ([Xml.elem "rules" "" [Xml.elem "rule" "" []],
                Xml.elem "rules" "" [Xml.elem "rule" "" [],
                  Xml.elem "rule" "" []]].map parseXmlRules).flatten.get ⟨i, h⟩ with
                id := i + 1 })
      ∧ (∀ b ∈ [Xml.elem "rules" "" [Xml.elem "rule" "" []],
            Xml.elem "rules" "" [Xml.elem "rule" "" [],
              Xml.elem "rule" "" []]].map parseXmlRules,
          ∀ k (h : k < b.length), (b[k]).colour = colourFor k)) :=
  ⟨rfl, merge_reassigns_ids_only _ _ rfl⟩

theorem mem_insertNew (acc : List Nat) (x y : Nat) :
    y ∈ insertNew acc x ↔ y ∈ acc ∨ y = x := by
  unfold insertNew
  split <;> rename_i h
  · constructor
    · exact Or.inl
    · rintro (hy | rfl)
      · exact hy
      · exact h
  · simp

theorem insertNew_nodup (acc : List Nat) (x : Nat) (h : acc.Nodup) :
    (insertNew acc x).Nodup := by
  unfold insertNew
  split <;> rename_i hx
  · exact h
  · simpa [List.nodup_append] using ⟨h, hx⟩

theorem foldl_insertNew_nodup (l acc : List Nat) (h : acc.Nodup) :
    (l.foldl insertNew acc).Nodup := by
  induction l generalizing acc with
  | nil => exact h
  | cons x l ih => exact ih _ (insertNew_nodup acc x h)

theorem mem_foldl_insertNew (l : List Nat) (y : Nat) :
    ∀ acc, y ∈ l.foldl insertNew acc ↔ y ∈ acc ∨ y ∈ l := by
  induction l with
  | nil => simp
  | cons x l ih =>
    intro acc
    rw [List.foldl_cons, ih, mem_insertNew]
    simp [or_assoc]

/-- Membership in the batch query result: exactly the ids of matching
rules. -/
theorem mem_matchedIds (entry : BookingEntry) (rules : List PriceRule)
    (d : Int) (i : Nat) :
    i ∈ matchedIds entry rules d ↔
      ∃ r ∈ rules, r.id = i ∧ isBookingAllowedByRule r entry.startDate
        (parseIntJs entry.length) d = some true := by
  simp only [matchedIds, List.mem_filterMap]
  constructor
  · rintro ⟨r, hr, hf⟩
    by_cases hb : isBookingAllowedByRule r entry.startDate (parseIntJs entry.length) d
        = some true
    · rw [if_pos hb] at hf
      exact ⟨r, hr, Option.some.inj hf, hb⟩
    · rw [if_neg hb] at hf
      cases hf
  · rintro ⟨r, hr, hid, hb⟩
    exact ⟨r, hr, by rw [if_pos hb, hid]⟩

/-- An entry with an empty field matches no rule: the evaluator's guard
sees an empty start date, or `parseInt("")` is `NaN` and hence falsy. -/
theorem matchedIds_empty_entry (entry : BookingEntry) (rules : List PriceRule)
    (d : Int) (h : entry.startDate = "" ∨ entry.length = "") :
    matchedIds entry rules d = [] := by
  unfold matchedIds
  apply List.filterMap_eq_nil_iff.mpr
  intro r hr
  rcases h with h | h
  · rw [eval_falsy r entry.startDate (parseIntJs entry.length) d (Or.inl h)]
    simp
  · have hlen : parseIntJs entry.length = none := by rw [h]; rfl
    rw [eval_falsy r entry.startDate (parseIntJs entry.length) d
      (Or.inr (Or.inl hlen))]
    simp

/-- Under present rule dates the inner rule fold of `highlightedRuleIds`
never throws and is the pure first-seen insertion of the matching ids. -/
theorem inner_fold_eq (d : Int) (entry : BookingEntry) :
    ∀ (rules : List PriceRule),
      (∀ r ∈ rules, r.«from».isSome ∧ r.«to».isSome) →
      ∀ acc : List Nat,
      (rules.foldlM
        (fun ids rule =>
          match isBookingAllowedByRule rule entry.startDate
              (parseIntJs entry.length) d with
          | some b =>
            some (if b = true ∧ rule.id ∉ ids then ids ++ [rule.id] else ids)
          | none => none)
        acc)
      = some ((matchedIds entry rules d).foldl insertNew acc) := by
  intro rules
  induction rules with
  | nil => intro _ acc; rfl
  | cons r rules ih =>
    intro hok acc
    obtain ⟨b, hb⟩ := eval_total r entry.startDate (parseIntJs entry.length) d
      (hok r (List.mem_cons_self r rules)).1 (hok r (List.mem_cons_self r rules)).2
    have ihok := fun x hx => hok x (List.mem_cons_of_mem _ hx)
    rw [List.foldlM_cons, hb]
    dsimp only
    simp only [Option.bind_eq_bind, Option.some_bind]
    cases b with
    | true =>
      rw [ih ihok]
      have hm : matchedIds entry (r :: rules) d = r.id :: matchedIds entry rules d := by
        unfold matchedIds
        rw [List.filterMap_cons, if_pos hb]
      rw [hm, List.foldl_cons]
      congr 1
      unfold insertNew
      by_cases hmem : r.id ∈ acc
      · simp [hmem]
      · simp [hmem]
    | false =>
      rw [ih ihok]
      have hm : matchedIds entry (r :: rules) d = matchedIds entry rules d := by
        unfold matchedIds
        rw [List.filterMap_cons, if_neg (by simp [hb])]
      rw [hm]
      simp

/-- C8: for any list of booking entries and any rule set whose rules carry
both dates, the aggregate highlighted-id list exists (no evaluation
throws), equals the deduplicated first-seen union of the per-booking
matching-id lists (bookings iterated in list order, rules in rule-set
order), contains no duplicates, and contains an id exactly when some rule
with that id matches some supplied booking. -/
theorem aggregation_union (entries : List BookingEntry)
    (rules : List PriceRule) (d : Int)
    (hok : ∀ r ∈ rules, r.«from».isSome ∧ r.«to».isSome) :
    ∃ l, highlightedRuleIds entries rules d = some l
      ∧ l = firstSeenUnion (entries.map (fun e => matchedIds e rules d))
      ∧ l.Nodup
      ∧ ∀ i, i ∈ l ↔ ∃ e ∈ entries, ∃ r ∈ rules, r.id = i
          ∧ isBookingAllowedByRule r e.startDate (parseIntJs e.length) d
            = some true := by
  have hstep : ∀ (e : BookingEntry) (acc : List Nat),
      (if e.startDate = "" ∨ e.length = "" then some acc
       else rules.foldlM
        (fun ids rule =>
          match isBookingAllowedByRule rule e.startDate
              (parseIntJs e.length) d with
          | some b =>
            some (if b = true ∧ rule.id ∉ ids then ids ++ [rule.id] else ids)
          | none => none)
        acc)
      = some ((matchedIds e rules d).foldl insertNew acc) := by
    intro e acc
    split <;> rename_i hg
    · rw [matchedIds_empty_entry e rules d hg]
      rfl
    · exact inner_fold_eq d e rules hok acc
  have hmain : ∀ (es : List BookingEntry) (acc : List Nat),
      (es.foldlM
        (fun ids entry =>
          if entry.startDate = "" ∨ entry.length = "" then some ids
          else
            rules.foldlM
              (fun ids rule =>
                match isBookingAllowedByRule rule entry.startDate
                    (parseIntJs entry.length) d with
                | some b =>
                  some (if b = true ∧ rule.id ∉ ids then ids ++ [rule.id] else ids)
                | none => none)
              ids)
        acc)
      = some (es.foldl (fun a e => (matchedIds e rules d).foldl insertNew a) acc) := by
    intro es
    induction es with
    | nil => intro acc; rfl
    | cons e es ih =>
      intro acc
      rw [List.foldlM_cons]
      show ((if e.startDate = "" ∨ e.length = "" then some acc
          else rules.foldlM _ acc) >>= _) = _
      rw [hstep e acc]
      simp only [Option.bind_eq_bind, Option.some_bind]
      rw [ih, List.foldl_cons]
  refine ⟨(entries.map (fun e => matchedIds e rules d)).foldl
      (fun acc l => l.foldl insertNew acc) [], ?_, ?_, ?_, ?_⟩
  · unfold highlightedRuleIds
    rw [hmain entries [], List.foldl_map]
  · rfl
  · rw [List.foldl_map]
    generalize entries = es
    induction es using List.reverseRecOn with
    | nil => exact List.nodup_nil
    | append_singleton es e ih =>
      rw [List.foldl_append, List.foldl_cons, List.foldl_nil]
      exact foldl_insertNew_nodup _ _ ih
  · intro i
    rw [List.foldl_map]
    have : ∀ (es : List BookingEntry) (acc : List Nat),
        i ∈ es.foldl (fun a e => (matchedIds e rules d).foldl insertNew a) acc
        ↔ i ∈ acc ∨ ∃ e ∈ es, i ∈ matchedIds e rules d := by
      intro es
      induction es with
      | nil => simp
      | cons e es ih =>
        intro acc
        rw [List.foldl_cons, ih, mem_foldl_insertNew]
        simp [or_assoc]
    rw [this entries []]
    simp only [List.not_mem_nil, false_or]
    constructor
    · rintro ⟨e, he, hm⟩
      obtain ⟨r, hr, hid, hb⟩ := (mem_matchedIds e rules d i).mp hm
      exact ⟨e, he, r, hr, hid, hb⟩
    · rintro ⟨e, he, r, hr, hid, hb⟩
      exact ⟨e, he, (mem_matchedIds e rules d i).mpr ⟨r, hr, hid, hb⟩⟩

/-- Concrete data for the aggregation example: booking one matches rules
1 and 2, booking two matches rules 2 and 3. -/
def unionExampleRules : List PriceRule :=
  [{ id := 1, «from» := some "2025-06-01", «to» := some "2025-06-30",
     percentage := none, arrivalWeekdays := [], minStay := none,
     maxStay := none, maxDaysToArrival := none, colour := "",
     originalXml := .elem "rule" "" [] },
   { id := 2, «from» := some "2025-06-01", «to» := some "2025-07-31",
     percentage := none, arrivalWeekdays := [], minStay := none,
     maxStay := none, maxDaysToArrival := none, colour := "",
     originalXml := .elem "rule" "" [] },
   { id := 3, «from» := some "2025-07-01", «to» := some "2025-07-31",
     percentage := none, arrivalWeekdays := [], minStay := none,
     maxStay := none, maxDaysToArrival := none, colour := "",
     originalXml := .elem "rule" "" [] }]

def unionExampleEntries : List BookingEntry :=
  [⟨"2025-06-15", "3"⟩, ⟨"2025-07-15", "3"⟩]

/-- C8 witness: per-booking matches `[1, 2]` and `[2, 3]` aggregate to the
first-seen union `[1, 2, 3]`, as delivered by `highlightedRuleIds`. -/
theorem aggregation_union_witness :
    (∀ r ∈ unionExampleRules, r.«from».isSome ∧ r.«to».isSome)
    ∧ matchedIds ⟨"2025-06-15", "3"⟩ unionExampleRules 20089 = [1, 2]
    ∧ matchedIds ⟨"2025-07-15", "3"⟩ unionExampleRules 20089 = [2, 3]
    ∧ firstSeenUnion (unionExampleEntries.map
        (fun e => matchedIds e unionExampleRules 20089)) = [1, 2, 3]
    ∧ ∃ l, highlightedRuleIds unionExampleEntries unionExampleRules 20089 = some l
        ∧ l = firstSeenUnion (unionExampleEntries.map
            (fun e => matchedIds e unionExampleRules 20089))
        ∧ l.Nodup
        ∧ ∀ i, i ∈ l ↔ ∃ e ∈ unionExampleEntries, ∃ r ∈ unionExampleRules,
            r.id = i ∧ isBookingAllowedByRule r e.startDate
              (parseIntJs e.length) 20089 = some true :=
  ⟨by decide, by decide, by decide, by decide,
   aggregation_union unionExampleEntries unionExampleRules 20089 (by decide)⟩

end PriceRuleDebugger
